import Mathlib

/-!
Shallow embedding of the V8 test-runner core, translated from:
  tools/testrunner/objects/testcase.py   (TestCase: command assembly, variants,
                                          timeouts, source-flag parsing)
  test/inspector/testcfg.py              (inspector suite: discovery, judgment)
  test/webkit/testcfg.py                 (webkit suite: discovery, judgment,
                                          source-file parsing)

Python strings are modelled as Lean `String` (lists of characters); Python
lists as Lean `List`; functions that can raise (shlex tokenisation errors)
return `Option`.  Paths are plain strings joined with the POSIX separator.
-/

/-! ## Python string helpers -/

/-- Python whitespace characters recognised by `str.strip`, `str.split` and
the regex class matched by a whitespace escape: space, tab, newline,
carriage return, vertical tab, form feed. -/
def isPyWs (c : Char) : Bool :=
  c = ' ' || c = '\t' || c = '\n' || c = '\r' || c = Char.ofNat 11 || c = Char.ofNat 12

/-- Python `str.strip()`: drop leading and trailing whitespace. -/
def pyStrip (s : String) : String :=
  ⟨((s.data.dropWhile isPyWs).reverse.dropWhile isPyWs).reverse⟩

/-- Python `str.startswith(pre)`. -/
def strStartsWith (s pre : String) : Bool := pre.data.isPrefixOf s.data

/-- Python `str.endswith(suf)`. -/
def strEndsWith (s suf : String) : Bool := suf.data.isSuffixOf s.data

/-- Python `pat in s` substring containment, over character lists. -/
def containsSub (pat : List Char) : List Char → Bool
  | [] => pat.isPrefixOf []
  | c :: cs => pat.isPrefixOf (c :: cs) || containsSub pat cs

/-- Python `str.splitlines()` restricted to the newline terminator: splits on
a newline character and produces no trailing empty line. -/
def splitLinesList : List Char → List (List Char)
  | [] => []
  | c :: cs =>
    let rest := splitLinesList cs
    if c = '\n' then [] :: rest
    else
      match rest with
      | [] => [[c]]
      | l :: ls => (c :: l) :: ls

/-- `str.splitlines()` on a `String`. -/
def splitLines (s : String) : List String :=
  (splitLinesList s.data).map (fun cs => ⟨cs⟩)

/-! ## testcase.py: TestCase data model -/

/-- The fields of the invoking context consumed by command assembly
(testrunner context object). -/
structure Context where
  extra_flags : List String
  mode_flags : List String
  timeout : Nat

/-- `TestCase.__init__` state that the modelled methods read: identity plus
variant state.  Execution-only fields (`output`, `id`, `duration`, ...) are
not consumed by the modelled operations. -/
structure TestCase where
  suite : String
  path : String
  name : String
  variant : Option String
  variant_flags : List String

/-- `TestCase.__init__(suite, path, name)`: `variant` starts as `None` and
`variant_flags` as the empty list. -/
def TestCase.mkBase (suite path name : String) : TestCase :=
  { suite := suite, path := path, name := name, variant := none, variant_flags := [] }

/-- `TestCase._copy`: `self.__class__(self.suite, self.path, self.name)` --
a fresh object built from the constructor, carrying only the identity. -/
def TestCase.copy (t : TestCase) : TestCase :=
  TestCase.mkBase t.suite t.path t.name

/-- `TestCase.create_variant(variant, flags)`: copy, then set
`variant_flags` to `flags` when the parent has none, else to
`self.variant_flags + flags`, then set `variant`.  The embedding is pure,
so the parent value `t` is untouched by construction, matching the fact
that the Python method never mutates `self`. -/
def createVariant (t : TestCase) (variant : String) (flags : List String) : TestCase :=
  let c := t.copy
  let c :=
    if t.variant_flags.isEmpty then { c with variant_flags := flags }
    else { c with variant_flags := t.variant_flags ++ flags }
  { c with variant := some variant }

/-- `TestCase._get_statusfile_flags`: loop over
`suite.GetStatusFileOutcomes(name, variant)` (passed in as `outcomes`,
the status file being an external collaborator) collecting every outcome
that starts with a flag marker. -/
def getStatusfileFlags (outcomes : List String) : List String :=
  outcomes.foldl
    (fun flags outcome => if strStartsWith outcome "--" then flags ++ [outcome] else flags) []

/-- `TestCase._get_cmd_params(ctx)`: the seven-part concatenation.  The
overridable hooks `_get_files_params`, `_get_source_flags` and
`_get_suite_flags` are passed in as arguments (the base class returns `[]`
for each); `_get_extra_flags`, `_get_variant_flags` and `_get_mode_flags`
read the context and the test case as in the source. -/
def getCmdParams (t : TestCase) (ctx : Context)
    (filesParams outcomes sourceFlags suiteFlags : List String) : List String :=
  filesParams ++ ctx.extra_flags ++ t.variant_flags ++ getStatusfileFlags outcomes ++
    ctx.mode_flags ++ sourceFlags ++ suiteFlags

/-- `TestCase._get_timeout(params, timeout)`: `*= 4` under the
optimisation-stress flag, `*= 2` under the negative VFP flag, then an
unconditional `*= 2`. -/
def getTimeout (params : List String) (timeout : Nat) : Nat :=
  let t1 := if "--stress-opt" ∈ params then timeout * 4 else timeout
  let t2 := if "--noenable-vfp3" ∈ params then t1 * 2 else t1
  t2 * 2

/-! ## testcfg.py: pass/fail judgment (inspector and webkit suites) -/

/-- A stress-test separator: an output line starting with the separator
marker, as tested by `line.startswith` in `ActBlockIterator`. -/
def isSeparator (l : String) : Bool := strStartsWith l "=="

/-- `TestSuite._IgnoreLine` of the inspector suite: empty lines, valgrind
output, Android output and two known-benign strings. -/
def ignoreLineInspector (s : String) : Bool :=
  if s = "" then true
  else
    strStartsWith s "==" || strStartsWith s "**" || strStartsWith s "ANDROID" ||
      s == "Warning: unknown flag --enable-slow-asserts." || s == "Try --help for options"

/-- `TestSuite._IgnoreLine` of the webkit suite: as the inspector one, plus
lines containing the incremental-marking trace tag. -/
def ignoreLineWebkit (s : String) : Bool :=
  if s = "" then true
  else
    strStartsWith s "==" || strStartsWith s "**" || strStartsWith s "ANDROID" ||
      containsSub "[IncrementalMarking]".data s.data ||
      s == "Warning: unknown flag --enable-slow-asserts." || s == "Try --help for options"

/-- Inspector `ExpIterator`: skip blank expected lines, yield the others
stripped. -/
def expFilterInspector (ls : List String) : List String :=
  ls.filterMap (fun l => if pyStrip l == "" then none else some (pyStrip l))

/-- Webkit `ExpIterator`: additionally skip lines whose raw text starts with
the comment marker. -/
def expFilterWebkit (ls : List String) : List String :=
  ls.filterMap
    (fun l => if strStartsWith l "#" || pyStrip l == "" then none else some (pyStrip l))

/-- `ActIterator(lines)`: strip each line, skip it when the suite's ignore
predicate holds for the stripped text, yield the stripped text otherwise. -/
def actFilter (ign : String → Bool) (lines : List String) : List String :=
  lines.filterMap (fun l => if ign (pyStrip l) then none else some (pyStrip l))

/-- `ActBlockIterator`'s `for index, line in enumerate(lines)` loop.  The
suffix being traversed is `lines.drop index`; `start` is the Python
`start_index`, `found` is `found_eqeq`, and `acc` collects the blocks
yielded so far (`lines[start_index:index]` is `(lines.drop start).take
(index - start)`).  After the loop, the whole output is one block only if
no separator was found; otherwise the trailing slice is never yielded. -/
def actBlocksLoop (lines : List String) :
    List String → Nat → Nat → Bool → List (List String) → List (List String)
  | [], _, _, found, acc => if found then acc else [lines]
  | line :: rest, index, start, found, acc =>
    if isSeparator line then
      if found then
        actBlocksLoop lines rest (index + 1) (index + 1) true
          (acc ++ [(lines.drop start).take (index - start)])
      else
        actBlocksLoop lines rest (index + 1) (index + 1) true acc
    else
      actBlocksLoop lines rest (index + 1) start found acc

/-- The list of blocks produced by `ActBlockIterator` over the split stdout
lines (each block still unfiltered; `ActIterator` is applied at comparison
time). -/
def actBlocks (lines : List String) : List (List String) :=
  actBlocksLoop lines lines 0 0 false []

/-- The tail of the `izip_longest` loop once the expected side is
exhausted: each remaining actual line is compared against the empty-string
fill value. -/
def fillMismatchAct : List String → Bool
  | [] => false
  | a :: as => if "" ≠ a then true else fillMismatchAct as

/-- The tail of the `izip_longest` loop once the actual side is exhausted:
each remaining expected line is compared against the empty-string fill
value. -/
def fillMismatchExp : List String → Bool
  | [] => false
  | e :: es => if e ≠ "" then true else fillMismatchExp es

/-- The `itertools.izip_longest(ExpIterator(), act_iterator, fillvalue='')`
comparison loop: pad the shorter sequence with empty strings and report a
mismatch at the first unequal position. -/
def zipMismatch : List String → List String → Bool
  | [], as => fillMismatchAct as
  | e :: es, [] => if e ≠ "" then true else fillMismatchExp es
  | e :: es, a :: as => if e ≠ a then true else zipMismatch es as

/-- The `for act_iterator in ActBlockIterator()` loop of `IsFailureOutput`:
`return True` on the first mismatch inside the first block, `return False`
at the end of the first block, and fall through to Python `None` when the
iterator yields no block at all. -/
def judgeBlocks (expFiltered : List String) (ign : String → Bool) :
    List (List String) → Option Bool
  | [] => none
  | b :: _ => if zipMismatch expFiltered (actFilter ign b) then some true else some false

/-- Inspector `TestSuite.IsFailureOutput`, with the expected-output fixture
passed in as its list of lines. -/
def isFailureOutputInspector (expectedLines : List String) (stdout : String) : Option Bool :=
  judgeBlocks (expFilterInspector expectedLines) ignoreLineInspector (actBlocks (splitLines stdout))

/-- Webkit `TestSuite.IsFailureOutput`: first the generic superclass failure
check (an external collaborator, passed as `superFailure`), then the same
block comparison with the webkit filters. -/
def isFailureOutputWebkit (superFailure : Bool) (expectedLines : List String)
    (stdout : String) : Option Bool :=
  if superFailure then some true
  else judgeBlocks (expFilterWebkit expectedLines) ignoreLineWebkit (actBlocks (splitLines stdout))

/-! ### Specification-side descriptions of the segmentation

`blocksAfter cur ls` is the sequence of blocks produced once the first
separator has been passed, `cur` being the partial block accumulated since
the last separator; `sepSplit` splits a line list at separator lines into
`count-of-separators + 1` chunks.  These follow the spec's words and are
proved equal to the translated loop. -/

def blocksAfter (cur : List String) : List String → List (List String)
  | [] => []
  | l :: ls => if isSeparator l then cur :: blocksAfter [] ls else blocksAfter (cur ++ [l]) ls

def sepSplit : List String → List (List String)
  | [] => [[]]
  | l :: ls =>
    if isSeparator l then [] :: sepSplit ls
    else
      match sepSplit ls with
      | [] => [[l]]
      | c :: cs => (l :: c) :: cs

/-- Padding used to state the zip-longest comparison: extend a list with
empty-string sentinels up to a target length. -/
def padTo (l : List String) (n : Nat) : List String :=
  l ++ List.replicate (n - l.length) ""

/-! ## shlex.split (POSIX mode), used by `_parse_source_flags` -/

/-- `shlex.whitespace`: the token-separating characters. -/
def shWhitespace (c : Char) : Bool := c = ' ' || c = '\t' || c = '\r' || c = '\n'

/-- The single-quote character (written by code point to keep the source
free of quote literals). -/
def squoteChar : Char := Char.ofNat 39

/-- Tokeniser states of `shlex` in POSIX mode with whitespace splitting:
between tokens, inside an unquoted token, inside single quotes, inside
double quotes. -/
inductive ShSt where
  | out
  | word
  | sq
  | dq

/-- The `shlex.read_token` state machine (POSIX rules): single quotes are
fully literal; inside double quotes a backslash escapes only the double
quote and the backslash (otherwise both characters are kept); outside
quotes a backslash escapes any character; a quote may open mid-token and
an empty quoted string yields an empty token.  Unbalanced quotes or a
dangling escape raise `ValueError` in Python, modelled as `none`. -/
def shlexAux : ShSt → List Char → List Char → List String → Option (List String)
  | .out, _, [], acc => some acc
  | .out, tok, c :: cs, acc =>
    if shWhitespace c then shlexAux .out tok cs acc
    else if c = squoteChar then shlexAux .sq [] cs acc
    else if c = '"' then shlexAux .dq [] cs acc
    else if c = '\\' then
      match cs with
      | [] => none
      | d :: ds => shlexAux .word [d] ds acc
    else shlexAux .word [c] cs acc
  | .word, tok, [], acc => some (acc ++ [⟨tok⟩])
  | .word, tok, c :: cs, acc =>
    if shWhitespace c then shlexAux .out [] cs (acc ++ [⟨tok⟩])
    else if c = squoteChar then shlexAux .sq tok cs acc
    else if c = '"' then shlexAux .dq tok cs acc
    else if c = '\\' then
      match cs with
      | [] => none
      | d :: ds => shlexAux .word (tok ++ [d]) ds acc
    else shlexAux .word (tok ++ [c]) cs acc
  | .sq, _, [], _ => none
  | .sq, tok, c :: cs, acc =>
    if c = squoteChar then shlexAux .word tok cs acc
    else shlexAux .sq (tok ++ [c]) cs acc
  | .dq, _, [], _ => none
  | .dq, tok, c :: cs, acc =>
    if c = '"' then shlexAux .word tok cs acc
    else if c = '\\' then
      match cs with
      | [] => none
      | d :: ds =>
        if d = '"' || d = '\\' then shlexAux .dq (tok ++ [d]) ds acc
        else shlexAux .dq (tok ++ ['\\', d]) ds acc
    else shlexAux .dq (tok ++ [c]) cs acc

/-- `shlex.split(s)` (POSIX, whitespace split). -/
def shlexSplit (s : String) : Option (List String) :=
  shlexAux .out [] s.data []

/-! ## Regex directive scanning

`FLAGS_PATTERN`, `FILES_PATTERN` and `SELF_SCRIPT_PATTERN` all have the
shape: two slashes, one or more whitespace characters (which in Python's
regex class may include a newline), a literal keyword, and for the first
two a capture running to the end of the line.  `re.findall`/`re.search`
scan the whole source left to right and resume after each match, which the
functions below reproduce; greedy whitespace needs no backtracking because
each keyword starts with a non-whitespace character. -/

/-- Attempt the part of the pattern after the two slashes at the current
position: one or more whitespace characters, the keyword, then the capture
up to the end of the line.  Returns the capture and the unscanned rest. -/
def matchKeyAt (key : List Char) (cs : List Char) : Option (List Char × List Char) :=
  if (cs.takeWhile isPyWs).isEmpty then none
  else
    let afterWs := cs.dropWhile isPyWs
    if key.isPrefixOf afterWs then
      let afterKey := afterWs.drop key.length
      some (afterKey.takeWhile (fun c => c ≠ '\n'), afterKey.dropWhile (fun c => c ≠ '\n'))
    else none

/-- `re.findall` for a directive pattern: try each position left to right,
resume after the end of a match.  `fuel` bounds the recursion; calls pass
the source length, which the scan never exhausts since every step consumes
at least one character. -/
def findAllKeyF (key : List Char) : Nat → List Char → List (List Char)
  | 0, _ => []
  | _ + 1, [] => []
  | fuel + 1, c :: cs =>
    if c = '/' then
      match cs with
      | [] => []
      | c2 :: cs2 =>
        if c2 = '/' then
          match matchKeyAt key cs2 with
          | some (cap, rest) => cap :: findAllKeyF key fuel rest
          | none => findAllKeyF key fuel cs
        else findAllKeyF key fuel cs
    else findAllKeyF key fuel cs

/-- All captures of `FLAGS_PATTERN` over the source text, in scan order. -/
def flagsCaptures (source : String) : List (List Char) :=
  findAllKeyF "Flags:".data source.data.length source.data

/-- `TestCase._parse_source_flags`: `flags += shlex.split(match.strip())`
for every match, an exception propagating immediately. -/
def parseSourceFlags (source : String) : Option (List String) :=
  (flagsCaptures source).foldl
    (fun acc cap =>
      match acc with
      | none => none
      | some flags =>
        match shlexSplit (pyStrip ⟨cap⟩) with
        | none => none
        | some ts => some (flags ++ ts))
    (some [])

/-- Specification-side description of the same parse: tokenise every
capture and concatenate in order, failing if any capture fails. -/
def tokenizeCaptures : List (List Char) → Option (List String)
  | [] => some []
  | cap :: caps =>
    match shlexSplit (pyStrip ⟨cap⟩), tokenizeCaptures caps with
    | some ts, some rest => some (ts ++ rest)
    | _, _ => none

/-- Whether a single line contains a match of the flags directive, the
reading used by the claim's per-line wording. -/
def lineHasFlagsDirective (l : String) : Bool :=
  !(findAllKeyF "Flags:".data l.data.length l.data).isEmpty

/-! ## webkit `_parse_source_files` and the path helpers it uses -/

/-- Split a character list at every character satisfying `p`, keeping empty
chunks (`str.split(sep)` shape; the building block for whitespace and
path-separator splitting). -/
def splitPred (p : Char → Bool) : List Char → List (List Char)
  | [] => [[]]
  | c :: cs =>
    let rest := splitPred p cs
    if p c then [] :: rest
    else
      match rest with
      | [] => [[c]]
      | t :: ts => (c :: t) :: ts

/-- Python `str.split()` with no argument: split on whitespace runs,
producing no empty tokens. -/
def pySplitWs (cs : List Char) : List String :=
  ((splitPred isPyWs cs).filter (fun t => !t.isEmpty)).map (fun t => ⟨t⟩)

/-- `os.path.join` for two components (POSIX): an absolute second component
replaces the first; otherwise a separator is inserted unless already
present. -/
def pathJoin2 (a b : String) : String :=
  if strStartsWith b "/" then b
  else if a = "" then b
  else if strEndsWith a "/" then a ++ b
  else a ++ "/" ++ b

/-- Join a path onto a list of further components, as
`os.path.join(root, c1, c2, ...)`. -/
def pathJoinList (a : String) (parts : List String) : String :=
  parts.foldl pathJoin2 a

/-- The component loop of `posixpath.normpath`: drop empty and dot
components; a dot-dot pops the previous component unless the path is
relative and empty so far or the previous component is itself a dot-dot. -/
def normSegs (initialSlashes : Bool) (comps : List String) : List String :=
  comps.foldl
    (fun acc comp =>
      if comp = "" || comp = "." then acc
      else if comp ≠ ".." || (!initialSlashes && acc.isEmpty) ||
          (!acc.isEmpty && acc.getLast? == some "..") then acc ++ [comp]
      else if !acc.isEmpty then acc.dropLast
      else acc)
    []

/-- Concatenate path components with the POSIX separator
(`sep.join(comps)`). -/
def joinSlash : List String → String
  | [] => ""
  | [x] => x
  | x :: y :: xs => x ++ "/" ++ joinSlash (y :: xs)

/-- `posixpath.normpath`: one leading slash is kept, exactly two leading
slashes are kept as two, an empty result becomes a dot. -/
def normpath (p : String) : String :=
  let init1 := strStartsWith p "/"
  let init2 := strStartsWith p "//" && !strStartsWith p "///"
  let comps := (splitPred (fun c => c = '/') p.data).map (fun t => (⟨t⟩ : String))
  let joined := joinSlash (normSegs init1 comps)
  let res := if init2 then "//" ++ joined else if init1 then "/" ++ joined else joined
  if res = "" then "." else res

/-- Python `s.replace(bs, bs + bs)` doubling every backslash. -/
def doubleBackslashes (s : String) : String :=
  ⟨s.data.foldr (fun c acc => if c = '\\' then '\\' :: '\\' :: acc else c :: acc) []⟩

/-- All captures of `FILES_PATTERN` over the source, in scan order (the
`while True` loop re-searching from `match.end()`). -/
def filesCaptures (source : String) : List (List Char) :=
  findAllKeyF "Files:".data source.data.length source.data

/-- Whether `SELF_SCRIPT_PATTERN` (`Env: TEST_FILE_NAME` after slashes and
whitespace) occurs anywhere in the source. -/
def hasSelfScript (source : String) : Bool :=
  !(findAllKeyF "Env: TEST_FILE_NAME".data source.data.length source.data).isEmpty

/-- webkit `TestCase._parse_source_files(source)`, with `suite.root` and the
test `path` passed explicitly: collect the whitespace-split names of every
files directive, resolve each against the grandparent of the suite root,
optionally prepend the self-filename environment pair, then append the
pre-harness file, the test file and the post-harness file. -/
def parseSourceFiles (source root path : String) : List String :=
  let filesList := (filesCaptures source).foldl
    (fun acc cap => acc ++ pySplitWs (pyStrip ⟨cap⟩).data) []
  let files := filesList.map (fun f => normpath (pathJoinList root ["..", "..", f]))
  let testfilename := pathJoin2 root (path ++ ".js")
  let files :=
    if hasSelfScript source then
      ["-e", "TEST_FILE_NAME=\"" ++ doubleBackslashes testfilename ++ "\""] ++ files
    else files
  let files := files ++ [pathJoin2 root "resources/standalone-pre.js"]
  let files := files ++ [testfilename]
  let files := files ++ [pathJoin2 root "resources/standalone-post.js"]
  files

/-! ## Test discovery (`ListTests` of both suites)

The directory tree handed to `os.walk` is modelled as a finite tree whose
nodes carry a directory name, subdirectories and file names; sibling names
on a real file system are distinct, so the in-place `dirs.remove(name)`
pruning equals filtering that name out.  Walks are fuel-bounded (any fuel
at least the tree depth is exact); tests are produced as component paths
relative to the suite root, and joining them with the separator gives the
test name built from `fullpath[len(self.root) + 1 : -3]`. -/

inductive FSTree where
  | node (name : String) (subdirs : List FSTree) (files : List String)

def FSTree.name : FSTree → String
  | .node n _ _ => n

/-- Python string comparison: lexicographic over character code points. -/
def charListLe : List Char → List Char → Bool
  | [], _ => true
  | _ :: _, [] => false
  | c :: cs, d :: ds =>
    if c.toNat < d.toNat then true
    else if d.toNat < c.toNat then false
    else charListLe cs ds

def strLe (a b : String) : Bool := charListLe a.data b.data

/-- Stable insertion used to model Python's in-place `list.sort()` on file
names. -/
def insertStr (x : String) : List String → List String
  | [] => [x]
  | y :: ys => if strLe x y then x :: y :: ys else y :: insertStr x ys

def sortStr (l : List String) : List String := l.foldr insertStr []

/-- Sorting the subdirectory list by name, modelling `dirs.sort()`. -/
def insertTree (d : FSTree) : List FSTree → List FSTree
  | [] => [d]
  | e :: es => if strLe d.name e.name then d :: e :: es else e :: insertTree d es

def sortTrees (l : List FSTree) : List FSTree := l.foldr insertTree []

/-- Inspector `ListTests`: prune hidden directories from descent, skip the
file loop (and the sorts) when the walked directory name ends with the
resources folder, else sort and emit every `.js` file except the shared
protocol-test harness, then descend.  `atResources` carries the
`dirname.endswith(os.path.sep + RESOURCES_FOLDER)` test: for a child it is
exactly `name == "resources"`, and the top-level call passes the value for
the suite root itself. -/
def inspectorWalkPaths : Nat → List String → Bool → FSTree → List (List String)
  | 0, _, _, _ => []
  | fuel + 1, relpath, atResources, .node _ subdirs files =>
    let kept := subdirs.filter (fun d => !strStartsWith d.name ".")
    if atResources then
      kept.flatMap
        (fun d => inspectorWalkPaths fuel (relpath ++ [d.name]) (d.name == "resources") d)
    else
      ((sortStr files).filter
          (fun f => strEndsWith f ".js" && f != "protocol-test.js")).map
          (fun f => relpath ++ [⟨f.data.take (f.data.length - 3)⟩]) ++
        (sortTrees kept).flatMap
          (fun d => inspectorWalkPaths fuel (relpath ++ [d.name]) (d.name == "resources") d)

/-- Webkit `ListTests`: prune hidden directories and the resources
directory from descent, sort, emit every `.js` file, descend. -/
def webkitWalkPaths : Nat → List String → FSTree → List (List String)
  | 0, _, _ => []
  | fuel + 1, relpath, .node _ subdirs files =>
    let kept :=
      (subdirs.filter (fun d => !strStartsWith d.name ".")).filter
        (fun d => d.name != "resources")
    ((sortStr files).filter (fun f => strEndsWith f ".js")).map
        (fun f => relpath ++ [⟨f.data.take (f.data.length - 3)⟩]) ++
      (sortTrees kept).flatMap (fun d => webkitWalkPaths fuel (relpath ++ [d.name]) d)

/-- The inspector test names as strings (components joined by the
separator), as `ListTests` returns them. -/
def inspectorListTests (fuel : Nat) (rootAtResources : Bool) (t : FSTree) : List String :=
  (inspectorWalkPaths fuel [] rootAtResources t).map joinSlash

/-! ## Theorems: C1, C2, C3 -/

theorem statusfileFlags_foldl (outcomes acc : List String) :
    outcomes.foldl
      (fun flags outcome => if strStartsWith outcome "--" then flags ++ [outcome] else flags) acc
      = acc ++ outcomes.filter (fun o => strStartsWith o "--") := by
  induction outcomes generalizing acc with
  | nil => simp
  | cons o os ih =>
    cases h : strStartsWith o "--" <;> simp [List.filter_cons, h, ih]

/-- C1: for every test case and every context, the argument list built by
`_get_cmd_params` is exactly the concatenation, in this fixed order, of
(1) file-list parameters, (2) the context's extra flags, (3) the test's
variant flags, (4) the status-file outcomes that start with a flag marker,
(5) the context's mode flags, (6) source-derived flags, and
(7) suite-specific extra flags. -/
theorem c1_cmd_params_order (t : TestCase) (ctx : Context)
    (filesParams outcomes sourceFlags suiteFlags : List String) :
    getCmdParams t ctx filesParams outcomes sourceFlags suiteFlags =
      filesParams ++ ctx.extra_flags ++ t.variant_flags ++
        outcomes.filter (fun o => strStartsWith o "--") ++
        ctx.mode_flags ++ sourceFlags ++ suiteFlags := by
  unfold getCmdParams getStatusfileFlags
  rw [statusfileFlags_foldl]
  simp

/-- C2: `_get_timeout` multiplies the base by 4 when the stress flag is in
the parameter list, additionally by 2 when the negative VFP flag is, and
always by a further 2; the factors compose multiplicatively, so base 10
with both flags gives 160 and base 10 with neither gives 20. -/
theorem c2_timeout_policy (params : List String) (timeout : Nat) :
    getTimeout params timeout =
      timeout * (if "--stress-opt" ∈ params then 4 else 1) *
        (if "--noenable-vfp3" ∈ params then 2 else 1) * 2 ∧
    getTimeout ["--stress-opt", "--noenable-vfp3"] 10 = 160 ∧
    getTimeout ([] : List String) 10 = 20 := by
  refine ⟨?_, by decide, by decide⟩
  by_cases h1 : "--stress-opt" ∈ params <;>
    by_cases h2 : "--noenable-vfp3" ∈ params <;>
      simp [getTimeout, h1, h2]

/-- C3: `create_variant` never mutates the parent (the embedding is a pure
function of `t`, mirroring that the method only writes to the fresh copy);
the derived case carries the parent's identity, `variant` equals the new
name, and `variant_flags` is the parent's flags concatenated with the new
flags when the parent had any, else exactly the new flags. -/
theorem c3_create_variant (t : TestCase) (variant : String) (flags : List String) :
    (createVariant t variant flags).variant = some variant ∧
    (createVariant t variant flags).suite = t.suite ∧
    (createVariant t variant flags).path = t.path ∧
    (createVariant t variant flags).name = t.name ∧
    (t.variant_flags = [] → (createVariant t variant flags).variant_flags = flags) ∧
    (t.variant_flags ≠ [] → (createVariant t variant flags).variant_flags
        = t.variant_flags ++ flags) := by
  by_cases h : t.variant_flags = [] <;>
    simp [createVariant, TestCase.copy, TestCase.mkBase, List.isEmpty_iff, h]

theorem c3_create_variant_witness :
    (createVariant (TestCase.mkBase "suite" "p" "n") "x" ["--f"]).variant_flags = ["--f"] ∧
    (createVariant (createVariant (TestCase.mkBase "suite" "p" "n") "x" ["--v"]) "y"
        ["--f"]).variant_flags = ["--v", "--f"] := by
  constructor
  · exact (c3_create_variant (TestCase.mkBase "suite" "p" "n") "x" ["--f"]).2.2.2.2.1 rfl
  · exact (c3_create_variant (createVariant (TestCase.mkBase "suite" "p" "n") "x" ["--v"])
      "y" ["--f"]).2.2.2.2.2 (by decide)

/-! ## Segmentation characterisation (shared by C4, C5, C6, C10) -/

theorem actBlocksLoop_found (lines : List String) :
    ∀ (rest : List String) (index start : Nat) (acc : List (List String)),
      lines.drop index = rest → start ≤ index →
      actBlocksLoop lines rest index start true acc
        = acc ++ blocksAfter ((lines.drop start).take (index - start)) rest := by
  intro rest
  induction rest with
  | nil =>
    intro index start acc _ _
    simp [actBlocksLoop, blocksAfter]
  | cons l ls ih =>
    intro index start acc hdrop hle
    have hdrop1 : lines.drop (index + 1) = ls := by
      have h1 := List.drop_drop 1 index lines
      rw [hdrop] at h1
      simpa using h1.symm
    by_cases hsep : isSeparator l
    · simp only [actBlocksLoop, hsep, if_true]
      rw [ih (index + 1) (index + 1) _ hdrop1 (Nat.le_refl _)]
      simp [blocksAfter, hsep, Nat.sub_self]
    · have htake : (lines.drop start).take (index + 1 - start)
          = (lines.drop start).take (index - start) ++ [l] := by
        have hm : index + 1 - start = (index - start) + 1 := by omega
        rw [hm, List.take_succ]
        have hget : (lines.drop start)[index - start]? = some l := by
          rw [← List.head?_drop, List.drop_drop]
          have hsum : start + (index - start) = index := by omega
          rw [hsum, hdrop]
          rfl
        rw [hget]
        rfl
      simp only [actBlocksLoop, hsep, if_false, Bool.false_eq_true]
      rw [ih (index + 1) start _ hdrop1 (by omega)]
      simp [blocksAfter, hsep, htake]

theorem actBlocksLoop_notFound (lines : List String) :
    ∀ (rest : List String) (index start : Nat) (acc : List (List String)),
      lines.drop index = rest →
      actBlocksLoop lines rest index start false acc =
        if rest.countP isSeparator = 0 then [lines]
        else acc ++ blocksAfter [] ((rest.dropWhile (fun l => !isSeparator l)).tail) := by
  intro rest
  induction rest with
  | nil =>
    intro index start acc _
    simp [actBlocksLoop]
  | cons l ls ih =>
    intro index start acc hdrop
    have hdrop1 : lines.drop (index + 1) = ls := by
      have h1 := List.drop_drop 1 index lines
      rw [hdrop] at h1
      simpa using h1.symm
    by_cases hsep : isSeparator l
    · simp only [actBlocksLoop, hsep, if_true]
      rw [actBlocksLoop_found lines ls (index + 1) (index + 1) acc hdrop1 (Nat.le_refl _)]
      have hcnt : (l :: ls).countP isSeparator ≠ 0 := by
        simp [List.countP_cons, hsep]
      rw [if_neg hcnt]
      simp [List.dropWhile_cons, hsep, Nat.sub_self]
    · simp only [actBlocksLoop, hsep, if_false, Bool.false_eq_true]
      rw [ih (index + 1) start acc hdrop1]
      simp [List.countP_cons, List.dropWhile_cons, hsep]

theorem sepSplit_ne_nil (ls : List String) : sepSplit ls ≠ [] := by
  cases ls with
  | nil => simp [sepSplit]
  | cons l ls =>
    by_cases hsep : isSeparator l
    · simp [sepSplit, hsep]
    · simp only [sepSplit, hsep]
      cases h : sepSplit ls <;> simp

theorem blocksAfter_sepSplit :
    ∀ (ls : List String) (cur c : List String) (cs : List (List String)),
      sepSplit ls = c :: cs → blocksAfter cur ls = ((cur ++ c) :: cs).dropLast := by
  intro ls
  induction ls with
  | nil =>
    intro cur c cs h
    simp [sepSplit] at h
    obtain ⟨rfl, rfl⟩ := h
    simp [blocksAfter]
  | cons l ls ih =>
    intro cur c cs h
    obtain ⟨c2, cs2, h2⟩ : ∃ c2 cs2, sepSplit ls = c2 :: cs2 := by
      cases hx : sepSplit ls with
      | nil => exact absurd hx (sepSplit_ne_nil ls)
      | cons a b => exact ⟨a, b, rfl⟩
    by_cases hsep : isSeparator l
    · simp only [sepSplit, hsep, if_true] at h
      rw [List.cons_eq_cons] at h
      obtain ⟨h1, h3⟩ := h
      subst h1
      subst h3
      simp only [blocksAfter, hsep, if_true]
      rw [ih [] c2 cs2 h2, h2]
      simp [List.dropLast]
    · simp only [sepSplit, hsep, if_false, Bool.false_eq_true, h2] at h
      rw [List.cons_eq_cons] at h
      obtain ⟨h1, h3⟩ := h
      subst h1
      subst h3
      simp only [blocksAfter, hsep, if_false, Bool.false_eq_true]
      rw [ih (cur ++ [l]) c2 cs2 h2]
      simp

theorem blocksAfter_tail_spec (lines : List String)
    (h : lines.countP isSeparator ≠ 0) :
    blocksAfter [] ((lines.dropWhile (fun l => !isSeparator l)).tail)
      = ((sepSplit lines).drop 1).dropLast := by
  induction lines with
  | nil => simp at h
  | cons l ls ih =>
    by_cases hsep : isSeparator l
    · simp only [List.dropWhile_cons, hsep, Bool.not_true, if_false, Bool.false_eq_true,
        List.tail_cons, sepSplit, if_true, List.drop_succ_cons, List.drop_zero]
      obtain ⟨c2, cs2, h2⟩ : ∃ c2 cs2, sepSplit ls = c2 :: cs2 := by
        cases hx : sepSplit ls with
        | nil => exact absurd hx (sepSplit_ne_nil ls)
        | cons a b => exact ⟨a, b, rfl⟩
      rw [blocksAfter_sepSplit ls [] c2 cs2 h2, h2]
      simp
    · have h' : ls.countP isSeparator ≠ 0 := by
        simpa [List.countP_cons, hsep] using h
      obtain ⟨c2, cs2, h2⟩ : ∃ c2 cs2, sepSplit ls = c2 :: cs2 := by
        cases hx : sepSplit ls with
        | nil => exact absurd hx (sepSplit_ne_nil ls)
        | cons a b => exact ⟨a, b, rfl⟩
      simp only [List.dropWhile_cons, hsep, Bool.not_false, if_true, sepSplit,
        Bool.false_eq_true, if_false, h2]
      rw [ih h', h2]
      simp

/-- The segmentation, characterised: with no separator the whole output is
one block; otherwise the chunks delimited by separator lines, minus the
preamble before the first separator and minus the trailing chunk after the
last one. -/
theorem actBlocks_eq (lines : List String) :
    actBlocks lines =
      if lines.countP isSeparator = 0 then [lines]
      else ((sepSplit lines).drop 1).dropLast := by
  unfold actBlocks
  rw [actBlocksLoop_notFound lines lines 0 0 [] (by simp)]
  by_cases h : lines.countP isSeparator = 0
  · simp [h]
  · rw [if_neg h, if_neg h, List.nil_append]
    exact blocksAfter_tail_spec lines h

theorem sepSplit_length (ls : List String) :
    (sepSplit ls).length = ls.countP isSeparator + 1 := by
  induction ls with
  | nil => simp [sepSplit]
  | cons l ls ih =>
    by_cases hsep : isSeparator l
    · simp [sepSplit, hsep, List.countP_cons, ih]
    · obtain ⟨c2, cs2, h2⟩ : ∃ c2 cs2, sepSplit ls = c2 :: cs2 := by
        cases hx : sepSplit ls with
        | nil => exact absurd hx (sepSplit_ne_nil ls)
        | cons a b => exact ⟨a, b, rfl⟩
      simp only [sepSplit, hsep, Bool.false_eq_true, if_false, h2]
      have hlen : (c2 :: cs2).length = ls.countP isSeparator + 1 := by
        rw [← h2]
        exact ih
      simp only [List.length_cons] at hlen ⊢
      simp [List.countP_cons, hsep]
      omega

/-! ## Zip-longest comparison lemmas (shared by C6) -/

theorem fillMismatchAct_iff :
    ∀ A : List String, fillMismatchAct A = false ↔ A = List.replicate A.length "" := by
  intro A
  induction A with
  | nil => simp [fillMismatchAct]
  | cons a as ih =>
    by_cases h : a = ""
    · subst h
      simpa [fillMismatchAct, List.replicate_succ] using ih
    · have h2 : ("" : String) ≠ a := fun hx => h hx.symm
      simp [fillMismatchAct, List.replicate_succ, h, h2]

theorem fillMismatchExp_iff :
    ∀ E : List String, fillMismatchExp E = false ↔ E = List.replicate E.length "" := by
  intro E
  induction E with
  | nil => simp [fillMismatchExp]
  | cons e es ih =>
    by_cases h : e = ""
    · subst h
      simpa [fillMismatchExp, List.replicate_succ] using ih
    · simp [fillMismatchExp, List.replicate_succ, h]

theorem zipMismatch_nil_left :
    ∀ A : List String, zipMismatch [] A = false ↔ A = List.replicate A.length "" := by
  intro A
  rw [show zipMismatch [] A = fillMismatchAct A from rfl]
  exact fillMismatchAct_iff A

theorem zipMismatch_nil_right :
    ∀ E : List String, zipMismatch E [] = false ↔ E = List.replicate E.length "" := by
  intro E
  cases E with
  | nil => simp [zipMismatch, fillMismatchAct]
  | cons e es =>
    by_cases h : e = ""
    · subst h
      simpa [zipMismatch, List.replicate_succ] using fillMismatchExp_iff es
    · simp [zipMismatch, List.replicate_succ, h]

theorem padTo_cons (x : String) (xs : List String) (n : Nat) :
    padTo (x :: xs) (n + 1) = x :: padTo xs n := by
  simp [padTo, Nat.succ_sub_succ]

theorem padTo_nil (n : Nat) : padTo [] n = List.replicate n "" := by
  simp [padTo]

/-- The `izip_longest` comparison succeeds exactly when the two sequences,
padded with empty-string sentinels to a common length, agree position by
position. -/
theorem zipMismatch_iff_pad :
    ∀ E A : List String,
      zipMismatch E A = false ↔
        padTo E (max E.length A.length) = padTo A (max E.length A.length) := by
  intro E
  induction E with
  | nil =>
    intro A
    rw [zipMismatch_nil_left]
    simp [padTo_nil, padTo]
    exact eq_comm
  | cons e es ih =>
    intro A
    cases A with
    | nil =>
      rw [zipMismatch_nil_right]
      simp [padTo_nil, padTo, List.replicate_succ, eq_comm]
    | cons a as =>
      have hmax : max (e :: es).length (a :: as).length = max es.length as.length + 1 := by
        simp [List.length_cons, Nat.succ_max_succ]
      rw [hmax, padTo_cons, padTo_cons]
      by_cases h : e = a
      · subst h
        simpa [zipMismatch] using ih as
      · simp [zipMismatch, h]

theorem judgeBlocks_cons (E : List String) (ign : String → Bool)
    (b : List String) (r : List (List String)) :
    judgeBlocks E ign (b :: r) = some (zipMismatch E (actFilter ign b)) := by
  cases h : zipMismatch E (actFilter ign b) <;> simp [judgeBlocks, h]

/-! ## Theorems: C4, C5, C6, C10 -/

/-- C4 counterexample: for stdout `"==\nJUNK\n==\na\nb\n==\na\nb\n"` and an
expected fixture filtering to `["a", "b"]`, both suites' judgments return
failure (`True`), not the pass the claim states: the first yielded block is
the content between the first and second separators, `("JUNK")`, not
`("a", "b")`. -/
theorem c4_counterexample :
    isFailureOutputInspector ["a", "b"] "==\nJUNK\n==\na\nb\n==\na\nb\n" = some true ∧
    isFailureOutputWebkit false ["a", "b"] "==\nJUNK\n==\na\nb\n==\na\nb\n" = some true :=
  ⟨by decide, by decide⟩

/-- C4 amended: on that stdout the segmentation yields the blocks
`("JUNK")` and `("a", "b")` -- the preamble before the first separator is
empty and the trailing repetition is dropped -- and the judgment compares
only the first of them, `("JUNK")`, against the expected lines `("a",
"b")`, mismatches, and returns failure without checking the second
block. -/
theorem c4_amended :
    actBlocks (splitLines "==\nJUNK\n==\na\nb\n==\na\nb\n") = [["JUNK"], ["a", "b"]] ∧
    isFailureOutputInspector ["a", "b"] "==\nJUNK\n==\na\nb\n==\na\nb\n" = some true ∧
    isFailureOutputWebkit false ["a", "b"] "==\nJUNK\n==\na\nb\n==\na\nb\n" = some true :=
  ⟨by decide, by decide, by decide⟩

/-- C5 counterexample: for stdout `"==\na\n==\nb\n"` the trailing content
`b` after the last separator does not form a final block -- the
segmentation is `[("a")]`, not the claimed `[("a"), ("b")]`. -/
theorem c5_counterexample :
    actBlocks (splitLines "==\na\n==\nb\n") = [["a"]] ∧
    actBlocks (splitLines "==\na\n==\nb\n") ≠ [["a"], ["b"]] :=
  ⟨by decide, by decide⟩

/-- C5 amended: when no separator line occurs the whole output is one
block; otherwise the content before the first separator is discarded as an
uncompared preamble, each run of lines between two consecutive separators
is a block, and the trailing content after the last separator is also
discarded -- it never forms a block. -/
theorem c5_amended (lines : List String) :
    actBlocks lines =
      if lines.countP isSeparator = 0 then [lines]
      else ((sepSplit lines).drop 1).dropLast :=
  actBlocks_eq lines

/-- C6: whenever the segmentation yields at least one block, both suites'
judgments return the verdict of zipping the filtered expected lines
against the filtered lines of that first block -- padding the shorter side
with empty-string sentinels and failing on the first positional mismatch
-- and the verdict never depends on the later blocks. -/
theorem c6_first_block_judgment (expectedLines : List String) (stdout : String)
    (b : List String) (rest : List (List String))
    (h : actBlocks (splitLines stdout) = b :: rest) :
    isFailureOutputInspector expectedLines stdout
        = some (zipMismatch (expFilterInspector expectedLines)
            (actFilter ignoreLineInspector b)) ∧
    isFailureOutputWebkit false expectedLines stdout
        = some (zipMismatch (expFilterWebkit expectedLines)
            (actFilter ignoreLineWebkit b)) ∧
    (zipMismatch (expFilterInspector expectedLines) (actFilter ignoreLineInspector b) = false ↔
      padTo (expFilterInspector expectedLines)
          (max (expFilterInspector expectedLines).length
            (actFilter ignoreLineInspector b).length)
        = padTo (actFilter ignoreLineInspector b)
            (max (expFilterInspector expectedLines).length
              (actFilter ignoreLineInspector b).length)) ∧
    (∀ rest2, judgeBlocks (expFilterInspector expectedLines) ignoreLineInspector (b :: rest2)
        = isFailureOutputInspector expectedLines stdout) := by
  refine ⟨?_, ?_, zipMismatch_iff_pad _ _, ?_⟩
  · unfold isFailureOutputInspector
    rw [h, judgeBlocks_cons]
  · unfold isFailureOutputWebkit
    rw [if_neg (by simp), h, judgeBlocks_cons]
  · intro rest2
    unfold isFailureOutputInspector
    rw [h, judgeBlocks_cons, judgeBlocks_cons]

theorem c6_first_block_judgment_witness :
    isFailureOutputInspector ["x"] "x\n"
      = some (zipMismatch (expFilterInspector ["x"]) (actFilter ignoreLineInspector ["x"])) :=
  (c6_first_block_judgment ["x"] "x\n" ["x"] [] (by decide)).1

/-- C10: when the raw stdout contains exactly one separator line, the block
iterator yields no block at all (even when lines follow the separator), so
`IsFailureOutput` falls through its loop and returns Python `None` -- not
`True` -- whatever the expected fixture holds (webkit: provided the
superclass check did not already report failure). -/
theorem c10_single_separator (expectedLines : List String) (stdout : String)
    (h : (splitLines stdout).countP isSeparator = 1) :
    actBlocks (splitLines stdout) = [] ∧
    isFailureOutputInspector expectedLines stdout = none ∧
    isFailureOutputWebkit false expectedLines stdout = none := by
  have hb : actBlocks (splitLines stdout) = [] := by
    rw [actBlocks_eq, if_neg (by simp [h])]
    have hl : (sepSplit (splitLines stdout)).length = 2 := by
      rw [sepSplit_length, h]
    obtain ⟨a, b, hab⟩ := List.length_eq_two.mp hl
    rw [hab]
    rfl
  refine ⟨hb, ?_, ?_⟩
  · unfold isFailureOutputInspector
    rw [hb]
    rfl
  · unfold isFailureOutputWebkit
    rw [if_neg (by simp), hb]
    rfl

theorem c10_single_separator_witness :
    actBlocks (splitLines "==\na\nb\n") = [] ∧
    isFailureOutputInspector ["a", "b"] "==\na\nb\n" = none ∧
    isFailureOutputWebkit false ["a", "b"] "==\na\nb\n" = none :=
  c10_single_separator ["a", "b"] "==\na\nb\n" (by decide)

/-! ## Source-flag parsing lemmas and theorems (C7) -/

theorem parseFlagsFold_none (caps : List (List Char)) :
    caps.foldl
      (fun acc cap =>
        match acc with
        | none => none
        | some flags =>
          match shlexSplit (pyStrip ⟨cap⟩) with
          | none => none
          | some ts => some (flags ++ ts))
      none = none := by
  induction caps with
  | nil => rfl
  | cons cap caps ih => simpa using ih

theorem parseFlagsFold_some (caps : List (List Char)) :
    ∀ acc : List String,
      caps.foldl
        (fun acc cap =>
          match acc with
          | none => none
          | some flags =>
            match shlexSplit (pyStrip ⟨cap⟩) with
            | none => none
            | some ts => some (flags ++ ts))
        (some acc) = (tokenizeCaptures caps).map (fun ts => acc ++ ts) := by
  induction caps with
  | nil => intro acc; simp [tokenizeCaptures]
  | cons cap caps ih =>
    intro acc
    simp only [List.foldl_cons]
    cases h : shlexSplit (pyStrip ⟨cap⟩) with
    | none => simp [tokenizeCaptures, h, parseFlagsFold_none]
    | some ts =>
      show List.foldl _ (some (acc ++ ts)) caps = _
      rw [ih (acc ++ ts)]
      simp only [tokenizeCaptures, h]
      cases tokenizeCaptures caps <;> simp

/-- The loop accumulating `shlex.split` results over the matches equals
tokenising each capture and concatenating, in order. -/
theorem parseSourceFlags_eq_tokenize (source : String) :
    parseSourceFlags source = tokenizeCaptures (flagsCaptures source) := by
  unfold parseSourceFlags
  rw [parseFlagsFold_some (flagsCaptures source) []]
  cases tokenizeCaptures (flagsCaptures source) <;> simp

/-- C7 counterexample: in the source `"//\n Flags: --x"` the directive
pattern's whitespace spans the line break, so the parse yields `["--x"]`
although no single line matches the directive -- the claimed per-line
concatenation would be empty. -/
theorem c7_counterexample :
    parseSourceFlags "//\n Flags: --x" = some ["--x"] ∧
    (splitLines "//\n Flags: --x").all (fun l => !lineHasFlagsDirective l) = true :=
  ⟨by decide, by decide⟩

/-- C7 amended: the parsed source-flag list is the concatenation, in order
of occurrence, of the shlex-tokenised (quote-respecting) remainders of
every match of the flags-directive pattern over the whole source text
(the pattern's whitespace may span a line break, so a match need not lie
within one line); `"// Flags: --a --b \"c d\""` parses to exactly
`["--a", "--b", "c d"]`, and a source without any match parses to the
empty list. -/
theorem c7_amended :
    parseSourceFlags "// Flags: --a --b \"c d\"" = some ["--a", "--b", "c d"] ∧
    (∀ source : String, parseSourceFlags source = tokenizeCaptures (flagsCaptures source)) ∧
    (∀ source : String, flagsCaptures source = [] → parseSourceFlags source = some []) := by
  refine ⟨by decide, parseSourceFlags_eq_tokenize, ?_⟩
  intro source h
  rw [parseSourceFlags_eq_tokenize, h]
  rfl

theorem c7_amended_witness : parseSourceFlags "var x = 1;" = some [] :=
  c7_amended.2.2 "var x = 1;" (by decide)

/-! ## Discovery lemmas and theorems (C8) -/

theorem mem_insertTree (x d : FSTree) (l : List FSTree) :
    x ∈ insertTree d l → x = d ∨ x ∈ l := by
  induction l with
  | nil =>
    intro hx
    simp [insertTree] at hx
    exact Or.inl hx
  | cons e es ih =>
    by_cases h : strLe d.name e.name
    · simp only [insertTree, h, if_true]
      intro hx
      rcases List.mem_cons.mp hx with h1 | h2
      · exact Or.inl h1
      · exact Or.inr h2
    · simp only [insertTree, h, Bool.false_eq_true, if_false]
      intro hx
      rcases List.mem_cons.mp hx with h1 | h2
      · exact Or.inr (by simp [h1])
      · rcases ih h2 with h3 | h4
        · exact Or.inl h3
        · exact Or.inr (List.mem_cons_of_mem _ h4)

theorem mem_sortTrees (x : FSTree) (l : List FSTree) : x ∈ sortTrees l → x ∈ l := by
  induction l with
  | nil => simp [sortTrees]
  | cons e es ih =>
    intro hx
    simp only [sortTrees, List.foldr_cons] at hx
    rcases mem_insertTree x e (es.foldr insertTree []) hx with h1 | h2
    · simp [h1]
    · exact List.mem_cons_of_mem _ (ih h2)

/-- Every test emitted by the inspector walk extends the current relative
path by non-hidden directory components and a file stem, and its direct
parent directory is never named `resources` (its files would have been
skipped).  `hres` is the invariant tying the `atRes` flag to the walked
path. -/
theorem inspectorWalkPaths_spec :
    ∀ (fuel : Nat) (t : FSTree) (relpath : List String) (atRes : Bool)
      (comps : List String),
      (atRes = true ↔ relpath.getLast? = some "resources") →
      comps ∈ inspectorWalkPaths fuel relpath atRes t →
      ∃ extra stem, comps = relpath ++ extra ++ [stem] ∧
        (∀ c ∈ extra, strStartsWith c "." = false) ∧
        (relpath ++ extra).getLast? ≠ some "resources" := by
  intro fuel
  induction fuel with
  | zero =>
    intro t relpath atRes comps _ h
    simp [inspectorWalkPaths] at h
  | succ fuel ih =>
    intro t relpath atRes comps hres h
    cases t with
    | node n subdirs files =>
      have hchild : ∀ d : FSTree,
          d ∈ subdirs.filter (fun d => !strStartsWith d.name ".") →
          comps ∈ inspectorWalkPaths fuel (relpath ++ [d.name]) (d.name == "resources") d →
          ∃ extra stem, comps = relpath ++ extra ++ [stem] ∧
            (∀ c ∈ extra, strStartsWith c "." = false) ∧
            (relpath ++ extra).getLast? ≠ some "resources" := by
        intro d hd hcomps
        rw [List.mem_filter] at hd
        obtain ⟨_, hdclean⟩ := hd
        have hres2 : (d.name == "resources") = true ↔
            (relpath ++ [d.name]).getLast? = some "resources" := by
          simp [List.getLast?_concat]
        obtain ⟨extra, stem, heq, hclean, hlast⟩ :=
          ih d (relpath ++ [d.name]) (d.name == "resources") comps hres2 hcomps
        refine ⟨d.name :: extra, stem, ?_, ?_, ?_⟩
        · rw [heq]
          simp
        · intro c hc
          rcases List.mem_cons.mp hc with h1 | h2
          · subst h1
            simpa using hdclean
          · exact hclean c h2
        · have hsplit : relpath ++ d.name :: extra = (relpath ++ [d.name]) ++ extra := by
            simp
          rw [hsplit]
          exact hlast
      cases hAt : atRes with
      | true =>
        rw [hAt] at h
        simp only [inspectorWalkPaths, if_true] at h
        rw [List.mem_flatMap] at h
        obtain ⟨d, hd, hcomps⟩ := h
        exact hchild d hd hcomps
      | false =>
        rw [hAt] at h
        simp only [inspectorWalkPaths, Bool.false_eq_true, if_false] at h
        rw [List.mem_append] at h
        rcases h with hemit | hdesc
        · rw [List.mem_map] at hemit
          obtain ⟨f, _, hfeq⟩ := hemit
          refine ⟨[], ⟨f.data.take (f.data.length - 3)⟩, ?_, by simp, ?_⟩
          · rw [← hfeq]
            simp
          · rw [List.append_nil]
            rw [hAt] at hres
            simpa using fun hx => (hres.mpr hx)
        · rw [List.mem_flatMap] at hdesc
          obtain ⟨d, hd, hcomps⟩ := hdesc
          exact hchild d (mem_sortTrees d _ hd) hcomps

/-- Every test emitted by the webkit walk extends the current relative path
by components that are neither hidden nor named `resources`, plus a file
stem. -/
theorem webkitWalkPaths_spec :
    ∀ (fuel : Nat) (t : FSTree) (relpath : List String) (comps : List String),
      comps ∈ webkitWalkPaths fuel relpath t →
      ∃ extra stem, comps = relpath ++ extra ++ [stem] ∧
        ∀ c ∈ extra, strStartsWith c "." = false ∧ c ≠ "resources" := by
  intro fuel
  induction fuel with
  | zero =>
    intro t relpath comps h
    simp [webkitWalkPaths] at h
  | succ fuel ih =>
    intro t relpath comps h
    cases t with
    | node n subdirs files =>
      simp only [webkitWalkPaths] at h
      rw [List.mem_append] at h
      rcases h with hemit | hdesc
      · rw [List.mem_map] at hemit
        obtain ⟨f, _, hfeq⟩ := hemit
        refine ⟨[], ⟨f.data.take (f.data.length - 3)⟩, ?_, by simp⟩
        rw [← hfeq]
        simp
      · rw [List.mem_flatMap] at hdesc
        obtain ⟨d, hd, hcomps⟩ := hdesc
        have hd2 := mem_sortTrees d _ hd
        rw [List.mem_filter] at hd2
        obtain ⟨hd3, hdres⟩ := hd2
        rw [List.mem_filter] at hd3
        obtain ⟨_, hdclean⟩ := hd3
        obtain ⟨extra, stem, heq, hclean⟩ := ih d (relpath ++ [d.name]) comps hcomps
        refine ⟨d.name :: extra, stem, ?_, ?_⟩
        · rw [heq]
          simp
        · intro c hc
          rcases List.mem_cons.mp hc with h1 | h2
          · subst h1
            constructor
            · simpa using hdclean
            · simpa using hdres
          · exact hclean c h2

/-- C8 counterexample: discovery in the inspector suite does descend
beneath a `resources` directory -- only the files directly inside it are
skipped -- so the file `resources/sub/a.js` produces the test
`resources/sub/a`, refuting the claim for the inspector suite. -/
theorem c8_counterexample :
    inspectorWalkPaths 3 [] false
        (.node "root" [.node "resources" [.node "sub" [] ["a.js"]] ["r.js"]] [])
      = [["resources", "sub", "a"]] ∧
    inspectorListTests 3 false
        (.node "root" [.node "resources" [.node "sub" [] ["a.js"]] ["r.js"]] [])
      = ["resources/sub/a"] ∧
    "resources" ∈ (["resources", "sub", "a"] : List String).dropLast :=
  ⟨by decide, by decide, by decide⟩

/-- C8 amended: neither suite ever descends into a hidden directory, so no
test path contains a hidden directory component.  The webkit suite also
never descends into `resources`: no test path contains a `resources`
component at all.  The inspector suite only skips the files directly
inside a directory named `resources` (the test's direct parent is never
`resources`), but it descends into that directory's subdirectories, whose
files do produce tests. -/
theorem c8_amended :
    (∀ (fuel : Nat) (t : FSTree) (comps : List String),
        comps ∈ inspectorWalkPaths fuel [] false t →
        (∀ c ∈ comps.dropLast, strStartsWith c "." = false) ∧
        comps.dropLast.getLast? ≠ some "resources") ∧
    (∀ (fuel : Nat) (t : FSTree) (comps : List String),
        comps ∈ webkitWalkPaths fuel [] t →
        ∀ c ∈ comps.dropLast, strStartsWith c "." = false ∧ c ≠ "resources") := by
  constructor
  · intro fuel t comps h
    obtain ⟨extra, stem, heq, hclean, hlast⟩ :=
      inspectorWalkPaths_spec fuel t [] false comps (by simp) h
    subst heq
    rw [List.nil_append, List.dropLast_concat]
    refine ⟨hclean, ?_⟩
    simpa using hlast
  · intro fuel t comps h
    obtain ⟨extra, stem, heq, hclean⟩ := webkitWalkPaths_spec fuel t [] comps h
    subst heq
    rw [List.nil_append, List.dropLast_concat]
    exact hclean

theorem c8_amended_witness :
    ((∀ c ∈ (["t"] : List String).dropLast, strStartsWith c "." = false) ∧
      (["t"] : List String).dropLast.getLast? ≠ some "resources") ∧
    (∀ c ∈ (["u"] : List String).dropLast, strStartsWith c "." = false ∧ c ≠ "resources") :=
  ⟨c8_amended.1 1 (.node "root" [] ["t.js"]) ["t"] (by decide),
   c8_amended.2 1 (.node "root" [] ["u.js"]) ["u"] (by decide)⟩

/-! ## webkit source-file parsing theorem (C9) -/

theorem filesFold_flatMap (caps : List (List Char)) (acc : List String) :
    caps.foldl (fun acc cap => acc ++ pySplitWs (pyStrip ⟨cap⟩).data) acc
      = acc ++ caps.flatMap (fun cap => pySplitWs (pyStrip ⟨cap⟩).data) := by
  induction caps generalizing acc with
  | nil => simp
  | cons cap caps ih => simp [List.foldl_cons, ih]

/-- C9: for every webkit test source, the parsed files list is, in this
exact order: the environment pair exposing the test's own path (with
backslashes doubled) when the self-filename marker occurs anywhere in the
source; then the files named by the files directives, in order, resolved
against the grandparent of the suite root; then the pre-harness file; then
the test file itself; then the post-harness file. -/
theorem c9_files_order (source root path : String) :
    parseSourceFiles source root path =
      (if hasSelfScript source then
        ["-e", "TEST_FILE_NAME=\"" ++ doubleBackslashes (pathJoin2 root (path ++ ".js")) ++ "\""]
      else []) ++
      ((filesCaptures source).flatMap (fun cap => pySplitWs (pyStrip ⟨cap⟩).data)).map
        (fun f => normpath (pathJoinList root ["..", "..", f])) ++
      [pathJoin2 root "resources/standalone-pre.js",
        pathJoin2 root (path ++ ".js"),
        pathJoin2 root "resources/standalone-post.js"] ∧
    parseSourceFiles "// Env: TEST_FILE_NAME\n// Files: a.js b.js\n" "/v8/test/webkit" "t/x"
      = ["-e", "TEST_FILE_NAME=\"/v8/test/webkit/t/x.js\"", "/v8/a.js", "/v8/b.js",
          "/v8/test/webkit/resources/standalone-pre.js", "/v8/test/webkit/t/x.js",
          "/v8/test/webkit/resources/standalone-post.js"] := by
  constructor
  · unfold parseSourceFiles
    rw [filesFold_flatMap _ []]
    by_cases h : hasSelfScript source <;> simp [h, List.append_assoc]
  · decide
